import Mathlib

/-!
Shallow embedding of the DevDocs documentation-store library
(`src/lib.rs`): data model, manager state, persistence adapter model,
and the store / search operations, followed by theorems checking the
specification's claims against this embedding.

External collaborators (HTTP fetches, the nucleo fuzzy matcher, the
filesystem) are modelled as explicit oracle parameters; machine
integers (`u64`) are modelled as `Nat` with explicit wrapping
(`% 2 ^ 64`) where overflow matters.
-/

namespace DevDocs

/-! ### Data model (structs from `src/lib.rs`) -/

/-- `Links` from the source: optional home / code URLs. -/
structure Links where
  home : Option String
  code : Option String
deriving DecidableEq

/-- `Doc` from the source: one catalog entry (`SetMetadata` in the spec).
The source field `alias` is rendered `aliasName` (keyword clash). -/
structure Doc where
  name : String
  slug : String
  doc_type : String
  links : Option Links
  mtime : Nat
  db_size : Nat
  attribution : Option String
  aliasName : Option String
deriving DecidableEq

/-- `Entry` from the source: one index entry. -/
structure Entry where
  name : String
  path : String
  entry_type : String
deriving DecidableEq

/-- `EntryType` from the source. -/
structure EntryType where
  name : String
  count : Nat
  slug : String
deriving DecidableEq

/-- `DocIndex` from the source. -/
structure DocIndex where
  entries : List Entry
  types : List EntryType
deriving DecidableEq

/-- `SearchableEntry` from the source: an entry tagged with its owning
doc's slug and display name. -/
structure SearchableEntry where
  entry : Entry
  doc_slug : String
  doc_name : String
deriving DecidableEq

/-- `SearchResult` from the source. The score is a `u16` in the source
(`nucleo` similarity, `0` = no match); modelled as `Nat`. -/
structure SearchResult where
  entry : SearchableEntry
  score : Nat
deriving DecidableEq

/-- `CachedDoc` from the source: the per-slug installed record
(`InstalledRecord` in the spec). -/
structure CachedDoc where
  doc : Doc
  index : DocIndex
  cached_at : Nat
deriving DecidableEq

/-- `DevDocsError` from the source (payloads of pass-through variants
dropped). -/
inductive DevDocsError where
  | network
  | ioError
  | jsonError
  | docNotFound (slug : String)
  | docAlreadyExists (slug : String)
  | cacheError (reason : String)
  | invalidSlug (slug : String)
deriving DecidableEq

instance {ε α : Type} [DecidableEq ε] [DecidableEq α] :
    DecidableEq (Except ε α) := fun a b =>
  match a, b with
  | .error e1, .error e2 => decidable_of_iff (e1 = e2) (by simp)
  | .ok a1, .ok a2 => decidable_of_iff (a1 = a2) (by simp)
  | .error _, .ok _ => isFalse (by simp)
  | .ok _, .error _ => isFalse (by simp)

/-! ### u64 arithmetic -/

/-- `2 ^ 64`, the modulus of `u64` arithmetic. -/
def U64 : Nat := 2 ^ 64

/-- Wrapping `u64` subtraction `a - b`, as compiled Rust performs it in
`get_available_docs` (line 158): underflow wraps modulo `2 ^ 64`. -/
def sub64 (a b : Nat) : Nat := (a % U64 + (U64 - b % U64)) % U64

/-- `CACHE_DURATION_DAYS` from the source. -/
def CACHE_DURATION_DAYS : Nat := 7

/-- The freshness TTL in seconds, `CACHE_DURATION_DAYS * 24 * 60 * 60`
exactly as written at line 158 of the source. -/
def cacheTTL : Nat := CACHE_DURATION_DAYS * 24 * 60 * 60

/-! ### Association-list maps

The in-memory `HashMap<String, CachedDoc>` and the data directory are
modelled as association lists; insertion replaces any earlier binding. -/

/-- Remove every binding of key `k`. -/
def eraseKey {β : Type} (k : String) (m : List (String × β)) : List (String × β) :=
  m.filter (fun p => p.1 != k)

/-- Insert (replace) the binding of key `k`. -/
def insertKey {β : Type} (k : String) (v : β) (m : List (String × β)) :
    List (String × β) :=
  eraseKey k m ++ [(k, v)]

/-- The key list of an association-list map. -/
def keys {β : Type} (m : List (String × β)) : List String := m.map Prod.fst

/-! ### Persistence adapter model

One `FileData` value per file of the data directory.  Serialization is
modelled by tagged values: deserializing at a type succeeds exactly on
an encoding produced at that same type (`bitcode` is a compact,
non-self-describing format; a blob written at one type is not a valid
encoding of another), and `corrupt` stands for unreadable or
unparseable bytes. -/

inductive FileData where
  /-- `bitcode::serialize` of a `DocIndex` (what `save_doc_cache` writes). -/
  | binIndex (index : DocIndex)
  /-- a `bitcode` encoding of a full `CachedDoc` (what `load_cache` expects). -/
  | binCached (c : CachedDoc)
  /-- `serde_json` of `(Vec<Doc>, u64)` (the catalog snapshot file). -/
  | availJson (docs : List Doc) (fetched_at : Nat)
  /-- an HTML artifact written by `split_into_html` (content
  materialization; link rewriting is an excluded collaborator). -/
  | htmlArtifact (contents : String)
  /-- unreadable or unparseable bytes. -/
  | corrupt
deriving DecidableEq

/-- `bitcode::deserialize::<CachedDoc>` on a file's bytes. -/
def parseCachedDoc : FileData → Option CachedDoc
  | .binCached c => some c
  | _ => none

/-- `serde_json::from_str::<(Vec<Doc>, u64)>` on a file's bytes. -/
def parseAvailJson : FileData → Option (List Doc × Nat)
  | .availJson docs t => some (docs, t)
  | _ => none

/-- Split a character list at every dot (the groups between dots, in
order; an empty input gives one empty group). -/
def splitDot : List Char → List (List Char)
  | [] => [[]]
  | c :: rest =>
    match splitDot rest with
    | [] => [[]]
    | g :: gs => if c = '.' then [] :: g :: gs else (c :: g) :: gs

/-- Rejoin dot-separated groups. -/
def joinDot : List (List Char) → List Char
  | [] => []
  | [g] => g
  | g :: gs => g ++ '.' :: joinDot gs

/-- Rust `Path::extension` for the simple file names used here: the part
after the final dot, none when there is no dot or the name is a
leading-dot hidden file. -/
def fileExt (name : String) : Option String :=
  match splitDot name.data with
  | [] => none
  | [_] => none
  | [[], _] => none
  | parts => (parts.getLast?).map (fun g => String.mk g)

/-- Rust `Path::file_stem` for the simple file names used here. -/
def fileStem (name : String) : Option String :=
  match splitDot name.data with
  | [] => none
  | [s] => some (String.mk s)
  | [[], s] => some (String.mk ('.' :: s))
  | parts => some (String.mk (joinDot parts.dropLast))

/-- `add_html_ext` from the source: appending `.html` (on the names the
code produces, both branches amount to appending `.html`). -/
def addHtmlExt (name : String) : String := name ++ ".html"

/-! ### Manager state

The fields of `DevDocsManager` that claims observe (the in-memory cache
and the catalog snapshot) together with the data directory. -/

structure MgrState where
  /-- `cache: RwLock<HashMap<String, CachedDoc>>`. -/
  cache : List (String × CachedDoc)
  /-- `available_docs: RwLock<Option<(Vec<Doc>, u64)>>`. -/
  available_docs : Option (List Doc × Nat)
  /-- the data directory, one entry per file. -/
  disk : List (String × FileData)
deriving DecidableEq

/-- The state right after `DevDocsManager::new()` + directory creation:
empty map, no snapshot, empty data directory. -/
def initState : MgrState := ⟨[], none, []⟩

/-! ### Oracles for external effects

Each network call or filesystem write is an oracle supplied per call:
`none` / `false` is the failure of that call. Each `current_timestamp()`
call site gets its own timestamp parameter. -/

/-- Oracles of one `refresh_available_docs` call. -/
structure RefreshEnv where
  /-- result of fetching and JSON-decoding `docs.json`. -/
  fetchResult : Option (List Doc)
  /-- whether the `fs::write` in `save_available_docs` succeeds. -/
  persistOk : Bool
  /-- `current_timestamp()` at line 143 (the in-memory snapshot stamp). -/
  now : Nat
  /-- `current_timestamp()` at line 467 (the persisted snapshot stamp). -/
  saveNow : Nat
deriving DecidableEq

/-- Oracles of one `add_doc` call. -/
structure AddEnv where
  /-- `current_timestamp()` of the freshness check inside
  `get_available_docs` (line 158). -/
  getNow : Nat
  /-- oracles of the catalog refresh that `get_available_docs` may run. -/
  refreshEnv : RefreshEnv
  /-- result of `download_doc_index`. -/
  indexResult : Option DocIndex
  /-- result of `download_doc_content` inside `split_into_html`. -/
  contentResult : Option (List (String × String))
  /-- `current_timestamp()` at line 204 (`cached_at` of the new record). -/
  cacheNow : Nat
  /-- whether the `fs::write` in `save_doc_cache` succeeds. -/
  saveOk : Bool
deriving DecidableEq

/-! ### Operations of the store -/

/-- `save_available_docs` (lines 465-471): serializes
`(docs, current_timestamp())` to `available_docs.json`. On write
failure the error propagates. -/
def save_available_docs (env : RefreshEnv) (docs : List Doc) (s : MgrState) :
    MgrState × Except DevDocsError Unit :=
  if env.persistOk then
    let d := insertKey "available_docs.json" (.availJson docs env.saveNow) s.disk
    ({ s with disk := d }, .ok ())
  else (s, .error .ioError)

/-- `refresh_available_docs` (lines 136-151): fetch `docs.json`, replace
the in-memory snapshot, then persist it. Note the snapshot is replaced
before the persist step. -/
def refresh_available_docs (env : RefreshEnv) (s : MgrState) :
    MgrState × Except DevDocsError (List Doc) :=
  match env.fetchResult with
  | none => (s, .error .network)
  | some docs =>
    let s1 : MgrState := { s with available_docs := some (docs, env.now) }
    match save_available_docs env docs s1 with
    | (s2, .ok _) => (s2, .ok docs)
    | (s2, .error e) => (s2, .error e)

/-- `get_available_docs` (lines 154-165): serve the snapshot when
`current_timestamp() - cached_at < CACHE_DURATION_DAYS * 24 * 60 * 60`
(wrapping `u64` subtraction), otherwise refresh. -/
def get_available_docs (gnow : Nat) (env : RefreshEnv) (s : MgrState) :
    MgrState × Except DevDocsError (List Doc) :=
  match s.available_docs with
  | some (docs, cached_at) =>
    if sub64 gnow cached_at < cacheTTL then (s, .ok docs)
    else refresh_available_docs env s
  | none => refresh_available_docs env s

/-- `is_doc_installed` (lines 276-279). -/
def is_doc_installed (slug : String) (s : MgrState) : Bool :=
  (s.cache.lookup slug).isSome

/-- `list_installed_docs` (lines 270-273). -/
def list_installed_docs (s : MgrState) : List String := keys s.cache

/-- `get_doc_info` (lines 282-288). -/
def get_doc_info (slug : String) (s : MgrState) : Except DevDocsError Doc :=
  match s.cache.lookup slug with
  | some cd => .ok cd.doc
  | none => .error (.docNotFound slug)

/-- The artifact writes of `split_into_html` (lines 167-178): one HTML
file per content page, name run through `add_html_ext`. -/
def writeHtmlArtifacts (content : List (String × String))
    (disk : List (String × FileData)) : List (String × FileData) :=
  content.foldl (fun d p => insertKey (addHtmlExt p.1) (.htmlArtifact p.2) d) disk

/-- `save_doc_cache` (lines 417-423): writes
`bitcode::serialize(&cached_doc.index)` — the index only — to
`{slug}.bin`. -/
def save_doc_cache (saveOk : Bool) (slug : String) (cached : CachedDoc)
    (s : MgrState) : MgrState × Except DevDocsError Unit :=
  if saveOk then
    let d := insertKey (slug ++ ".bin") (.binIndex cached.index) s.disk
    ({ s with disk := d }, .ok ())
  else (s, .error .ioError)

/-- `add_doc` (lines 181-216): no-op when installed; otherwise resolve
the slug against the catalog, download index and content, insert the
record into the map, then persist it. -/
def add_doc (env : AddEnv) (slug : String) (s : MgrState) :
    MgrState × Except DevDocsError Unit :=
  if is_doc_installed slug s then (s, .ok ())
  else
    match get_available_docs env.getNow env.refreshEnv s with
    | (s1, .error e) => (s1, .error e)
    | (s1, .ok available) =>
      match available.find? (fun d => d.slug == slug) with
      | none => (s1, .error (.docNotFound slug))
      | some doc =>
        match env.indexResult with
        | none => (s1, .error .network)
        | some index =>
          match env.contentResult with
          | none => (s1, .error .network)
          | some content =>
            let s2 : MgrState :=
              { s1 with disk := writeHtmlArtifacts content s1.disk }
            let cached : CachedDoc :=
              { doc := doc, index := index, cached_at := env.cacheNow }
            let s3 : MgrState :=
              { s2 with cache := insertKey slug cached s2.cache }
            save_doc_cache env.saveOk slug cached s3

/-- `remove_doc` (lines 219-239): NotFound unless installed; remove from
the map, then delete `{slug}.json` from disk when that file exists. -/
def remove_doc (removeOk : Bool) (slug : String) (s : MgrState) :
    MgrState × Except DevDocsError Unit :=
  if is_doc_installed slug s then
    let s1 : MgrState := { s with cache := eraseKey slug s.cache }
    if (s1.disk.lookup (slug ++ ".json")).isSome then
      if removeOk then
        ({ s1 with disk := eraseKey (slug ++ ".json") s1.disk }, .ok ())
      else (s1, .error .ioError)
    else (s1, .ok ())
  else (s, .error (.docNotFound slug))

/-- `update_doc` (lines 368-378): NotFound unless installed; then
`remove_doc` followed by `add_doc`, with no rollback. -/
def update_doc (removeOk : Bool) (env : AddEnv) (slug : String) (s : MgrState) :
    MgrState × Except DevDocsError Unit :=
  if is_doc_installed slug s then
    match remove_doc removeOk slug s with
    | (s1, .error e) => (s1, .error e)
    | (s1, .ok _) => add_doc env slug s1
  else (s, .error (.docNotFound slug))

/-- One step of the `load_cache` directory scan (lines 429-452): a
`.json` file whose stem is not `available_docs` is bitcode-deserialized
as a `CachedDoc`; a read or parse failure is logged and skipped. -/
def loadStep (cache : List (String × CachedDoc)) (file : String × FileData) :
    List (String × CachedDoc) :=
  if fileExt file.1 = some "json" then
    match fileStem file.1 with
    | some stem =>
      if stem = "available_docs" then cache
      else
        match parseCachedDoc file.2 with
        | some c => insertKey stem c cache
        | none => cache
    | none => cache
  else cache

/-- `load_cache` (lines 425-463): scan the data directory into the map,
then load the catalog snapshot from `available_docs.json` when it
parses; absence or corruption leaves the snapshot as it was. Per-record
failures never make `load_cache` itself fail. -/
def load_cache (s : MgrState) : MgrState × Except DevDocsError Unit :=
  let cache := s.disk.foldl loadStep s.cache
  let avail :=
    match s.disk.lookup "available_docs.json" with
    | some data =>
      match parseAvailJson data with
      | some p => some p
      | none => s.available_docs
    | none => s.available_docs
  ({ s with cache := cache, available_docs := avail }, .ok ())

/-! ### Search -/

/-- Descending-score ordering used by the sort at lines 344-348
(`b.score.partial_cmp(&a.score)`, a total order on `u16`). -/
def scoreGe (a b : SearchResult) : Prop := b.score ≤ a.score

instance : DecidableRel scoreGe := fun a b => Nat.decLe b.score a.score

instance : IsTotal SearchResult scoreGe :=
  ⟨fun a b => (Nat.le_total b.score a.score).imp id id⟩

instance : IsTrans SearchResult scoreGe :=
  ⟨fun _ _ _ hab hbc => le_trans hbc hab⟩

/-- The snapshot phase of `search` (lines 300-309): flatten every
installed set's entries, each tagged with its owning slug and the doc's
display name, in map-iteration order. -/
def collectEntries (cache : List (String × CachedDoc)) : List SearchableEntry :=
  cache.flatMap (fun p =>
    p.2.index.entries.map (fun e =>
      { entry := e, doc_slug := p.1, doc_name := p.2.doc.name }))

/-- The scoring of one entry (lines 327-340): the text is
`name ++ " " ++ entry_type` and the score is
`fuzzy_match(text, query).unwrap_or(0)`. -/
def scoreEntry (fuzzyMatch : String → String → Option Nat) (query : String)
    (e : SearchableEntry) : SearchResult :=
  { entry := e,
    score := (fuzzyMatch (e.entry.name ++ " " ++ e.entry.entry_type) query).getD 0 }

/-- `search` (lines 291-351). The nucleo matcher is an external
capability, passed as `fuzzyMatch text pattern`. The stable descending
sort of the source (`sort_by` on `b.score.partial_cmp(&a.score)`) is
modelled by the stable `insertionSort` under `scoreGe`, and the result
truncated to `limit` (default 50). -/
def search (fuzzyMatch : String → String → Option Nat) (query : String)
    (limit : Option Nat) (s : MgrState) : List SearchResult :=
  if s.cache.isEmpty then []
  else
    (List.insertionSort scoreGe
      ((collectEntries s.cache).map (scoreEntry fuzzyMatch query))).take
      (limit.getD 50)

/-! ### Association-list map lemmas -/

theorem mem_keys_iff_lookup_isSome {β : Type} (j : String) (m : List (String × β)) :
    j ∈ keys m ↔ (m.lookup j).isSome := by
  simp only [keys, List.mem_map, List.lookup_isSome_iff, beq_iff_eq]
  constructor
  · rintro ⟨p, hp, he⟩
    exact ⟨p, hp, he.symm⟩
  · rintro ⟨p, hp, he⟩
    exact ⟨p, hp, he.symm⟩

theorem mem_keys_eraseKey {β : Type} (j k : String) (m : List (String × β)) :
    j ∈ keys (eraseKey k m) ↔ j ∈ keys m ∧ j ≠ k := by
  simp only [keys, eraseKey, List.mem_map, List.mem_filter, bne_iff_ne]
  constructor
  · rintro ⟨p, ⟨hp, hne⟩, rfl⟩
    exact ⟨⟨p, hp, rfl⟩, hne⟩
  · rintro ⟨⟨p, hp, rfl⟩, hne⟩
    exact ⟨p, ⟨hp, hne⟩, rfl⟩

theorem mem_keys_insertKey {β : Type} (j k : String) (v : β) (m : List (String × β)) :
    j ∈ keys (insertKey k v m) ↔ j = k ∨ j ∈ keys m := by
  simp only [insertKey, keys, List.map_append, List.mem_append]
  rw [show List.map Prod.fst (eraseKey k m) = keys (eraseKey k m) from rfl,
    mem_keys_eraseKey]
  by_cases hjk : j = k
  · simp [hjk, keys]
  · simp [hjk, keys]

theorem lookup_eraseKey_self {β : Type} (k : String) (m : List (String × β)) :
    (eraseKey k m).lookup k = none := by
  simp only [List.lookup_eq_none_iff, eraseKey, List.mem_filter, bne_iff_ne]
  rintro ⟨a, b⟩ ⟨_, hne⟩
  exact Ne.symm hne

theorem lookup_eraseKey_ne {β : Type} {j k : String} (hjk : j ≠ k)
    (m : List (String × β)) : (eraseKey k m).lookup j = m.lookup j := by
  induction m with
  | nil => rfl
  | cons p m ih =>
    rcases p with ⟨a, b⟩
    by_cases hak : a = k
    · subst hak
      have hja : (j == a) = false := by
        simp only [beq_eq_false_iff_ne, ne_eq]
        exact hjk
      simp only [eraseKey, List.filter_cons, bne_self_eq_false, List.lookup_cons, hja]
      simpa [eraseKey] using ih
    · have hb : (a != k) = true := by
        simp only [bne_iff_ne, ne_eq]
        exact hak
      by_cases hja : j = a
      · subst hja
        simp [eraseKey, List.filter_cons, hb, List.lookup_cons]
      · have hjb : (j == a) = false := by
          simp only [beq_eq_false_iff_ne, ne_eq]
          exact hja
        simp only [eraseKey] at ih
        simp [eraseKey, List.filter_cons, hb, List.lookup_cons, hjb, ih]

theorem lookup_append_left {β : Type} {j : String} {m1 : List (String × β)}
    (m2 : List (String × β)) (h : (m1.lookup j).isSome) :
    (m1 ++ m2).lookup j = m1.lookup j := by
  induction m1 with
  | nil => simp at h
  | cons p m ih =>
    rcases p with ⟨a, b⟩
    by_cases hja : j = a
    · subst hja
      simp [List.lookup_cons]
    · have hb : (j == a) = false := by
        simp only [beq_eq_false_iff_ne, ne_eq]
        exact hja
      simp only [List.cons_append, List.lookup_cons, hb] at h ⊢
      exact ih h

theorem lookup_append_right {β : Type} {j : String} {m1 : List (String × β)}
    (m2 : List (String × β)) (h : m1.lookup j = none) :
    (m1 ++ m2).lookup j = m2.lookup j := by
  induction m1 with
  | nil => simp
  | cons p m ih =>
    rcases p with ⟨a, b⟩
    by_cases hja : j = a
    · subst hja
      simp [List.lookup_cons] at h
    · have hb : (j == a) = false := by
        simp only [beq_eq_false_iff_ne, ne_eq]
        exact hja
      simp only [List.cons_append, List.lookup_cons, hb] at h ⊢
      exact ih h

theorem lookup_insertKey_self {β : Type} (k : String) (v : β)
    (m : List (String × β)) : (insertKey k v m).lookup k = some v := by
  unfold insertKey
  rw [lookup_append_right _ (lookup_eraseKey_self k m)]
  simp

theorem lookup_insertKey_ne {β : Type} {j k : String} (hjk : j ≠ k) (v : β)
    (m : List (String × β)) : (insertKey k v m).lookup j = m.lookup j := by
  have hb : (j == k) = false := by
    simp only [beq_eq_false_iff_ne, ne_eq]
    exact hjk
  unfold insertKey
  rcases h : (eraseKey k m).lookup j with _ | w
  · rw [lookup_append_right _ h]
    rw [lookup_eraseKey_ne hjk m] at h
    simp [List.lookup_cons, hb, h]
  · rw [lookup_append_left _ (by simp [h]), h, ← lookup_eraseKey_ne hjk m, h]

/-! ### u64 subtraction lemmas -/

theorem sub64_of_le {a b : Nat} (hba : b ≤ a) (ha : a < U64) :
    sub64 a b = a - b := by
  have hb : b < U64 := lt_of_le_of_lt hba ha
  have hU : 0 < U64 := by norm_num [U64]
  unfold sub64
  rw [Nat.mod_eq_of_lt ha, Nat.mod_eq_of_lt hb]
  have he : a + (U64 - b) = U64 + (a - b) := by omega
  rw [he, Nat.add_mod_left, Nat.mod_eq_of_lt (by omega)]

theorem sub64_of_lt {a b : Nat} (hab : a < b) (hb : b < U64) :
    sub64 a b = U64 - (b - a) := by
  have ha : a < U64 := lt_trans hab hb
  unfold sub64
  rw [Nat.mod_eq_of_lt ha, Nat.mod_eq_of_lt hb,
    Nat.mod_eq_of_lt (show a + (U64 - b) < U64 by omega)]
  omega

/-! ### Operation frame lemmas -/

theorem refresh_cache_eq (env : RefreshEnv) (s : MgrState) :
    (refresh_available_docs env s).1.cache = s.cache := by
  unfold refresh_available_docs save_available_docs
  rcases env.fetchResult with _ | docs
  · rfl
  · by_cases h : env.persistOk <;> simp [h]

theorem get_available_cache_eq (g : Nat) (env : RefreshEnv) (s : MgrState) :
    (get_available_docs g env s).1.cache = s.cache := by
  unfold get_available_docs
  rcases s.available_docs with _ | p
  · exact refresh_cache_eq env s
  · rcases p with ⟨docs, T⟩
    by_cases hf : sub64 g T < cacheTTL
    · simp [hf]
    · simp [hf, refresh_cache_eq]

theorem add_doc_of_installed {slug : String} {s : MgrState}
    (h : is_doc_installed slug s = true) (env : AddEnv) :
    add_doc env slug s = (s, .ok ()) := by
  unfold add_doc
  simp [h]

theorem save_doc_cache_cache_eq (saveOk : Bool) (slug : String) (cd : CachedDoc)
    (s : MgrState) : (save_doc_cache saveOk slug cd s).1.cache = s.cache := by
  unfold save_doc_cache
  by_cases h : saveOk <;> simp [h]

theorem writeHtmlArtifacts_only_disk (content : List (String × String))
    (s : MgrState) :
    ({ s with disk := writeHtmlArtifacts content s.disk } : MgrState).cache
      = s.cache := rfl

theorem add_doc_cache_cases (env : AddEnv) (slug : String) (s : MgrState) :
    (add_doc env slug s).1.cache = s.cache ∨
    ∃ cd, (add_doc env slug s).1.cache = insertKey slug cd s.cache := by
  unfold add_doc
  by_cases hinst : is_doc_installed slug s
  · simp [hinst]
  · simp only [hinst, Bool.false_eq_true, if_false]
    rcases hget : get_available_docs env.getNow env.refreshEnv s with ⟨s1, res⟩
    have hc1 : s1.cache = s.cache := by
      have := get_available_cache_eq env.getNow env.refreshEnv s
      rw [hget] at this
      exact this
    rcases res with e | available
    · simp [hget, hc1]
    · simp only [hget]
      rcases hfind : available.find? (fun d => d.slug == slug) with _ | doc
      · simp [hfind, hc1]
      · simp only [hfind]
        rcases hidx : env.indexResult with _ | index
        · simp [hidx, hc1]
        · simp only [hidx]
          rcases hcont : env.contentResult with _ | content
          · simp [hcont, hc1]
          · simp only [hcont]
            right
            refine ⟨⟨doc, index, env.cacheNow⟩, ?_⟩
            rw [save_doc_cache_cache_eq]
            simp [hc1]

theorem add_doc_error_cache_eq {env : AddEnv} {slug : String} {s : MgrState}
    (hsave : env.saveOk = true) {e : DevDocsError}
    (herr : (add_doc env slug s).2 = .error e) :
    (add_doc env slug s).1.cache = s.cache := by
  unfold add_doc at herr ⊢
  by_cases hinst : is_doc_installed slug s
  · simp [hinst] at herr
  · simp only [hinst, Bool.false_eq_true, if_false] at herr ⊢
    rcases hget : get_available_docs env.getNow env.refreshEnv s with ⟨s1, res⟩
    have hc1 : s1.cache = s.cache := by
      have := get_available_cache_eq env.getNow env.refreshEnv s
      rw [hget] at this
      exact this
    rcases res with e1 | available
    · simp [hget, hc1]
    · simp only [hget] at herr ⊢
      rcases hfind : available.find? (fun d => d.slug == slug) with _ | doc
      · simp [hfind, hc1]
      · simp only [hfind] at herr ⊢
        rcases hidx : env.indexResult with _ | index
        · simp [hc1]
        · simp only [hidx] at herr ⊢
          rcases hcont : env.contentResult with _ | content
          · simp [hc1]
          · simp only [hcont] at herr ⊢
            unfold save_doc_cache at herr
            simp [hsave] at herr

theorem remove_doc_not_installed {slug : String} {s : MgrState}
    (h : is_doc_installed slug s = false) (removeOk : Bool) :
    remove_doc removeOk slug s = (s, .error (.docNotFound slug)) := by
  unfold remove_doc
  simp [h]

theorem remove_doc_cache_eq {slug : String} {s : MgrState}
    (h : is_doc_installed slug s = true) (removeOk : Bool) :
    (remove_doc removeOk slug s).1.cache = eraseKey slug s.cache := by
  unfold remove_doc
  simp only [h, if_true]
  by_cases hd : (({ s with cache := eraseKey slug s.cache } : MgrState).disk.lookup
      (slug ++ ".json")).isSome
  · by_cases hr : removeOk <;> simp [hd, hr]
  · simp [hd]

theorem remove_doc_ok_installed {removeOk : Bool} {slug : String} {s : MgrState}
    (h : (remove_doc removeOk slug s).2 = .ok ()) :
    is_doc_installed slug s = true := by
  by_cases hinst : is_doc_installed slug s
  · exact hinst
  · rw [remove_doc_not_installed (by simpa using hinst) removeOk] at h
    simp at h

theorem update_doc_eq_remove_then_add (removeOk : Bool) (env : AddEnv)
    (slug : String) (s : MgrState) :
    update_doc removeOk env slug s =
      match remove_doc removeOk slug s with
      | (s1, .error e) => (s1, .error e)
      | (s1, .ok _) => add_doc env slug s1 := by
  unfold update_doc
  by_cases hinst : is_doc_installed slug s
  · simp [hinst]
  · rw [remove_doc_not_installed (by simpa using hinst) removeOk]
    simp [hinst]

theorem search_doc_slug_mem {fm : String → String → Option Nat} {q : String}
    {lim : Option Nat} {s : MgrState} {r : SearchResult}
    (h : r ∈ search fm q lim s) : r.entry.doc_slug ∈ keys s.cache := by
  unfold search at h
  split at h
  · simp at h
  · have h1 := List.mem_of_mem_take h
    rw [List.mem_insertionSort] at h1
    simp only [collectEntries, scoreEntry, List.mem_map, List.mem_flatMap] at h1
    obtain ⟨e, ⟨p, hp, he2⟩, hr⟩ := h1
    obtain ⟨en, _, hee⟩ := he2
    subst hr
    subst hee
    simp only [keys, List.mem_map]
    exact ⟨p, hp, rfl⟩

/-! ### Sequences of store operations -/

/-- One mutating call against the store, with its oracles. -/
inductive Op where
  | addOp (env : AddEnv) (slug : String)
  | removeOp (removeOk : Bool) (slug : String)
  | updateOp (removeOk : Bool) (env : AddEnv) (slug : String)
  | refreshOp (env : RefreshEnv)
  | getAvailOp (gnow : Nat) (env : RefreshEnv)
deriving DecidableEq

/-- The state after one call (results discarded). -/
def execOp (s : MgrState) : Op → MgrState
  | .addOp env slug => (add_doc env slug s).1
  | .removeOp rOk slug => (remove_doc rOk slug s).1
  | .updateOp rOk env slug => (update_doc rOk env slug s).1
  | .refreshOp env => (refresh_available_docs env s).1
  | .getAvailOp g env => (get_available_docs g env s).1

/-- The state after a sequence of calls. -/
def execOps (s : MgrState) (ops : List Op) : MgrState := ops.foldl execOp s

/-- Does this operation (re)install the given slug? -/
def installsSlug (slug : String) : Op → Bool
  | .addOp _ t => t == slug
  | .updateOp _ _ t => t == slug
  | _ => false

theorem remove_doc_cache_cases (removeOk : Bool) (t : String) (s : MgrState) :
    (remove_doc removeOk t s).1.cache = s.cache ∨
    (remove_doc removeOk t s).1.cache = eraseKey t s.cache := by
  by_cases hinst : is_doc_installed t s
  · exact Or.inr (remove_doc_cache_eq hinst removeOk)
  · rw [remove_doc_not_installed (by simpa using hinst) removeOk]
    exact Or.inl rfl

theorem not_installed_execOp {slug : String} {s : MgrState}
    (hmem : slug ∉ keys s.cache) {op : Op} (hop : installsSlug slug op = false) :
    slug ∉ keys (execOp s op).cache := by
  cases op with
  | addOp env t =>
    have ht : ¬ t = slug := by simpa [installsSlug] using hop
    rcases add_doc_cache_cases env t s with h | ⟨cd, h⟩
    · simpa [execOp, h] using hmem
    · simp only [execOp, h, mem_keys_insertKey]
      rintro (rfl | hmem2)
      · exact ht rfl
      · exact hmem hmem2
  | removeOp rOk t =>
    rcases remove_doc_cache_cases rOk t s with h | h
    · simpa [execOp, h] using hmem
    · simp only [execOp, h, mem_keys_eraseKey]
      intro hc
      exact hmem hc.1
  | updateOp rOk env t =>
    have ht : ¬ t = slug := by simpa [installsSlug] using hop
    simp only [execOp, update_doc_eq_remove_then_add]
    rcases hrem : remove_doc rOk t s with ⟨s1, res⟩
    have hs1 : slug ∉ keys s1.cache := by
      have hcs := remove_doc_cache_cases rOk t s
      rw [hrem] at hcs
      dsimp only at hcs
      rcases hcs with h | h
      · rw [h]
        exact hmem
      · rw [h, mem_keys_eraseKey]
        intro hc
        exact hmem hc.1
    rcases res with e | u
    · simp only [hrem]
      exact hs1
    · simp only [hrem]
      rcases add_doc_cache_cases env t s1 with h | ⟨cd, h⟩
      · simpa [h] using hs1
      · simp only [h, mem_keys_insertKey]
        rintro (rfl | hmem2)
        · exact ht rfl
        · exact hs1 hmem2
  | refreshOp env => simpa [execOp, refresh_cache_eq] using hmem
  | getAvailOp g env => simpa [execOp, get_available_cache_eq] using hmem

theorem not_installed_execOps {slug : String} {ops : List Op} {s : MgrState}
    (hmem : slug ∉ keys s.cache)
    (hops : ∀ op ∈ ops, installsSlug slug op = false) :
    slug ∉ keys (execOps s ops).cache := by
  induction ops generalizing s with
  | nil => simpa [execOps] using hmem
  | cons op ops ih =>
    rw [execOps, List.foldl_cons]
    exact ih (not_installed_execOp hmem (hops op (by simp)))
      (fun o ho => hops o (by simp [ho]))

/-! ### Claim C4 -/

/-- **C4**: for every query, every limit (default 50 when unspecified) and
every store state, `search` returns at most `limit` results and the
scores are non-increasing across adjacent pairs. -/
theorem search_length_le_and_sorted (fm : String → String → Option Nat)
    (q : String) (lim : Option Nat) (s : MgrState) :
    (search fm q lim s).length ≤ lim.getD 50 ∧
    List.Chain' (fun a b : SearchResult => a.score ≥ b.score) (search fm q lim s) := by
  unfold search
  split
  · simp
  · constructor
    · exact List.length_take_le _ _
    · have hs := List.sorted_insertionSort scoreGe
        ((collectEntries s.cache).map (scoreEntry fm q))
      have ht := List.Pairwise.sublist (List.take_sublist (lim.getD 50) _) hs
      exact ht.chain'

/-! ### Claim C8 -/

/-- **C8**: calling `add_doc` on an already-installed slug returns
success and leaves the whole state (installed map and disk) unchanged:
the call is the identity on the state. -/
theorem add_doc_already_installed_noop (env : AddEnv) (slug : String)
    (s : MgrState) (h : is_doc_installed slug s = true) :
    add_doc env slug s = (s, .ok ()) :=
  add_doc_of_installed h env

def c8Doc : Doc := ⟨"Go", "go", "lang", none, 0, 0, none, none⟩

def c8State : MgrState := ⟨[("go", ⟨c8Doc, ⟨[], []⟩, 5⟩)], none, []⟩

def c8Env : AddEnv := ⟨0, ⟨none, true, 0, 0⟩, none, none, 0, true⟩

/-- Witness for C8 at a concrete installed slug. -/
theorem add_doc_already_installed_noop_witness :
    is_doc_installed "go" c8State = true ∧
    add_doc c8Env "go" c8State = (c8State, .ok ()) :=
  ⟨by decide, add_doc_already_installed_noop c8Env "go" c8State (by decide)⟩

/-! ### Claim C9 -/

def c9Entry : Entry := ⟨"Widget", "api/widget", "class"⟩

def c9Doc : Doc := ⟨"Example Lib", "examplelib", "api", none, 0, 0, none, none⟩

def c9State : MgrState := ⟨[("examplelib", ⟨c9Doc, ⟨[c9Entry], []⟩, 0⟩)], none, []⟩

/-- A matcher for which the query matches nothing: `fuzzy_match` returns
`None`, so `unwrap_or(0)` scores every entry 0. -/
def c9NoMatch : String → String → Option Nat := fun _ _ => none

/-- **C9**: zero-score entries are not filtered out of search results: in
a store with one entry and a query matching nothing (fewer than the
default limit of 50 entries score above 0), the result list contains
that entry with score 0. -/
theorem search_keeps_zero_score :
    search c9NoMatch "zzz" none c9State =
      [⟨⟨c9Entry, "examplelib", "Example Lib"⟩, 0⟩] := by decide

/-! ### Claim C3 -/

/-- **C3**: with a catalog snapshot fetched at time `T` present, a
`get_available_docs` call at time `Tp` (with `T ≤ Tp`, the snapshot
having been fetched in the past): if `Tp - T < TTL` the cached list is
returned with no refresh — the result is independent of the refresh
oracles and the state is returned untouched; if `Tp - T ≥ TTL` the call
is exactly a refresh, whose result it returns. -/
theorem get_available_docs_ttl (docs : List Doc) (T Tp : Nat) (s : MgrState)
    (h : s.available_docs = some (docs, T)) (hle : T ≤ Tp) (hlt : Tp < U64) :
    (Tp - T < cacheTTL →
      ∀ env, get_available_docs Tp env s = (s, .ok docs)) ∧
    (cacheTTL ≤ Tp - T →
      ∀ env, get_available_docs Tp env s = refresh_available_docs env s) := by
  have hsub : sub64 Tp T = Tp - T := sub64_of_le hle hlt
  constructor
  · intro hfresh env
    unfold get_available_docs
    rw [h]
    simp [hsub, hfresh]
  · intro hstale env
    unfold get_available_docs
    rw [h]
    simp [hsub, Nat.not_lt.mpr hstale]

def c3Doc : Doc := ⟨"C Three", "cthree", "lang", none, 0, 0, none, none⟩

def c3State : MgrState := ⟨[], some ([c3Doc], 10), []⟩

/-- Witness for C3 at a concrete snapshot and call time. -/
theorem get_available_docs_ttl_witness :
    ((20 : Nat) - 10 < cacheTTL →
      ∀ env, get_available_docs 20 env c3State = (c3State, .ok [c3Doc])) ∧
    (cacheTTL ≤ (20 : Nat) - 10 →
      ∀ env, get_available_docs 20 env c3State = refresh_available_docs env c3State) :=
  get_available_docs_ttl [c3Doc] 10 20 c3State rfl (by decide) (by decide)

/-! ### Claim C10 -/

/-- **C10**: the freshness check computes `now - fetched_at` as a
wrapping u64 subtraction with no guard: (i) when `fetched_at ≤ now` the
computed value is the true difference, so the check is well-defined;
(ii) `load_cache` stores any persisted `(docs, fetched_at)` pair into
the snapshot without validating `fetched_at` against the current time —
arbitrary (future) stamps are accepted unchanged; (iii) for a future
`fetched_at > now` the subtraction underflows, wrapping to
`2^64 - (fetched_at - now)` rather than the real (negative)
difference. -/
theorem freshness_check_unguarded (now T : Nat) (docs : List Doc)
    (d : List (String × FileData)) (hn : now < U64) (hT : T < U64) :
    (T ≤ now → sub64 now T = now - T) ∧
    ((load_cache ⟨[], none,
        insertKey "available_docs.json" (.availJson docs T) d⟩).1.available_docs
      = some (docs, T)) ∧
    (now < T → sub64 now T = U64 - (T - now)) := by
  refine ⟨fun hle => sub64_of_le hle hn, ?_, fun hlt => sub64_of_lt hlt hT⟩
  unfold load_cache
  simp [lookup_insertKey_self, parseAvailJson]

/-- Witness for C10 with a snapshot stamped 100 seconds in the future. -/
theorem freshness_check_unguarded_witness :
    (((200 : Nat) ≤ 100 → sub64 100 200 = 100 - 200) ∧
    ((load_cache ⟨[], none,
        insertKey "available_docs.json" (.availJson [] 200) []⟩).1.available_docs
      = some ([], 200)) ∧
    ((100 : Nat) < 200 → sub64 100 200 = U64 - (200 - 100))) :=
  freshness_check_unguarded 100 200 [] [] (by decide) (by decide)

/-! ### Claim C2 -/

def c2DocA : Doc := ⟨"Alpha", "alpha", "t", none, 0, 0, none, none⟩

def c2DocB : Doc := ⟨"Beta", "beta", "t", none, 0, 0, none, none⟩

def c2State : MgrState := ⟨[], some ([c2DocA], 0), []⟩

def c2Env : RefreshEnv := ⟨some [c2DocB], false, cacheTTL, cacheTTL⟩

/-- Counterexample to **C2** as stated: at time `cacheTTL` the snapshot
fetched at 0 is stale; the refresh's network fetch succeeds but its
persist step fails. The error does propagate, yet the stored
`(docs, fetched_at)` pair after the failed call differs from the pair
before it — the snapshot was already replaced before the persist
step. -/
theorem get_available_docs_persist_failure_replaces :
    (get_available_docs cacheTTL c2Env c2State).2 = .error .ioError ∧
    (get_available_docs cacheTTL c2Env c2State).1.available_docs ≠
      c2State.available_docs := by decide

/-- **C2 amended**: when the snapshot is stale and the refresh fails,
the error always propagates; on a network-fetch failure the state
(snapshot included) is unchanged, but on a persist failure the
in-memory snapshot has already been replaced with the newly fetched
list (only the installed map and the disk are unchanged). -/
theorem get_available_docs_refresh_failure (gnow : Nat) (env : RefreshEnv)
    (s : MgrState) (docs : List Doc) (T : Nat)
    (h : s.available_docs = some (docs, T)) (hstale : cacheTTL ≤ sub64 gnow T) :
    (env.fetchResult = none →
      get_available_docs gnow env s = (s, .error .network)) ∧
    (∀ newDocs, env.fetchResult = some newDocs → env.persistOk = false →
      (get_available_docs gnow env s).2 = .error .ioError ∧
      (get_available_docs gnow env s).1.available_docs = some (newDocs, env.now) ∧
      (get_available_docs gnow env s).1.cache = s.cache ∧
      (get_available_docs gnow env s).1.disk = s.disk) := by
  have hnl : ¬ sub64 gnow T < cacheTTL := Nat.not_lt.mpr hstale
  constructor
  · intro hf
    unfold get_available_docs
    rw [h]
    simp only [hnl, if_false]
    unfold refresh_available_docs
    rw [hf]
  · intro newDocs hf hp
    unfold get_available_docs
    rw [h]
    simp only [hnl, if_false]
    unfold refresh_available_docs save_available_docs
    rw [hf]
    simp [hp]

/-- Witness for the amended C2 at the concrete stale snapshot. -/
theorem get_available_docs_refresh_failure_witness :
    (c2Env.fetchResult = none →
      get_available_docs cacheTTL c2Env c2State = (c2State, .error .network)) ∧
    (∀ newDocs, c2Env.fetchResult = some newDocs → c2Env.persistOk = false →
      (get_available_docs cacheTTL c2Env c2State).2 = .error .ioError ∧
      (get_available_docs cacheTTL c2Env c2State).1.available_docs
        = some (newDocs, c2Env.now) ∧
      (get_available_docs cacheTTL c2Env c2State).1.cache = c2State.cache ∧
      (get_available_docs cacheTTL c2Env c2State).1.disk = c2State.disk) :=
  get_available_docs_refresh_failure cacheTTL c2Env c2State [c2DocA] 0 rfl
    (by decide)

/-! ### Claim C6 -/

theorem remove_doc_uninstalls (removeOk : Bool) (slug : String) (s : MgrState) :
    is_doc_installed slug (remove_doc removeOk slug s).1 = false := by
  by_cases hinst : is_doc_installed slug s
  · unfold is_doc_installed
    rw [remove_doc_cache_eq hinst removeOk, lookup_eraseKey_self]
    rfl
  · rw [remove_doc_not_installed (by simpa using hinst) removeOk]
    simpa using hinst

/-- **C6 amended**: `update_doc` is exactly `remove_doc` followed by
`add_doc` (including the not-installed error case), and a failure of the
second step is surfaced with no rollback; whenever the failed call did
not fail at the final persist step (`saveOk = true` rules that out), the
slug ends uninstalled. When the install fails at the persist step
itself, the record is already back in the in-memory map — see the
counterexample. -/
theorem update_doc_two_step (removeOk : Bool) (env : AddEnv) (slug : String)
    (s : MgrState) :
    (update_doc removeOk env slug s =
      match remove_doc removeOk slug s with
      | (s1, .error e) => (s1, .error e)
      | (s1, .ok _) => add_doc env slug s1) ∧
    (env.saveOk = true → ∀ e, (update_doc removeOk env slug s).2 = .error e →
      is_doc_installed slug (update_doc removeOk env slug s).1 = false) := by
  refine ⟨update_doc_eq_remove_then_add removeOk env slug s, ?_⟩
  intro hsave e herr
  rw [update_doc_eq_remove_then_add] at herr ⊢
  rcases hrem : remove_doc removeOk slug s with ⟨s1, res⟩
  have hui : is_doc_installed slug s1 = false := by
    have h2 := remove_doc_uninstalls removeOk slug s
    rw [hrem] at h2
    exact h2
  rw [hrem] at herr
  rcases res with e1 | u
  · exact hui
  · simp only at herr ⊢
    have hc := add_doc_error_cache_eq hsave herr
    unfold is_doc_installed at hui ⊢
    rw [hc]
    exact hui

def c6Doc : Doc := ⟨"Rust", "rust", "lang", none, 0, 0, none, none⟩

def c6Index : DocIndex := ⟨[⟨"Vec", "std/vec", "struct"⟩], []⟩

def c6State : MgrState := ⟨[("rust", ⟨c6Doc, c6Index, 50⟩)], some ([c6Doc], 100), []⟩

/-- Oracles making `update_doc`'s install step fail exactly at the
persist step (`saveOk = false`, everything earlier succeeds). -/
def c6Env : AddEnv := ⟨100, ⟨none, true, 100, 100⟩, some c6Index, some [], 100, false⟩

/-- Counterexample to **C6** as stated: an `update_doc` whose install
step fails at the persist step surfaces the error, yet the slug ends
*installed* (the in-memory insert happened before the failed persist),
contradicting "the slug ends uninstalled after the failed update". -/
theorem update_doc_persist_failure_leaves_installed :
    (update_doc true c6Env "rust" c6State).2 = .error .ioError ∧
    is_doc_installed "rust" (update_doc true c6Env "rust" c6State).1 = true := by
  decide

/-- Witness for the amended C6 at a failing index download
(`indexResult = none`, `saveOk = true`). -/
theorem update_doc_two_step_witness :
    ((update_doc true ⟨100, ⟨none, true, 100, 100⟩, none, some [], 100, true⟩
        "rust" c6State =
      match remove_doc true "rust" c6State with
      | (s1, .error e) => (s1, .error e)
      | (s1, .ok _) =>
        add_doc ⟨100, ⟨none, true, 100, 100⟩, none, some [], 100, true⟩ "rust" s1) ∧
    ((⟨100, ⟨none, true, 100, 100⟩, none, some [], 100, true⟩ : AddEnv).saveOk = true →
      ∀ e, (update_doc true ⟨100, ⟨none, true, 100, 100⟩, none, some [], 100, true⟩
          "rust" c6State).2 = .error e →
        is_doc_installed "rust"
          (update_doc true ⟨100, ⟨none, true, 100, 100⟩, none, some [], 100, true⟩
            "rust" c6State).1 = false)) :=
  update_doc_two_step true ⟨100, ⟨none, true, 100, 100⟩, none, some [], 100, true⟩
    "rust" c6State

/-! ### Claim C1 -/

def c1Doc : Doc := ⟨"Rust", "rust", "lang", none, 0, 0, none, none⟩

def c1Index : DocIndex := ⟨[⟨"Vec", "std/vec", "struct"⟩], []⟩

/-- Oracles for a fully successful install of `rust` from a fresh
manager: catalog fetch, index and content downloads, and both persists
all succeed. -/
def c1Env : AddEnv := ⟨0, ⟨some [c1Doc], true, 0, 0⟩, some c1Index, some [], 0, true⟩

def c1Installed : MgrState := (add_doc c1Env "rust" initState).1

def c1Reloaded : MgrState := (load_cache ⟨[], none, c1Installed.disk⟩).1

/-- **C1 is violated by the code** (persistence round-trip slip):
`save_doc_cache` writes the index-only record to `{slug}.bin`, but
`load_cache` only reads `*.json` files (expecting a full `CachedDoc`)
and `remove_doc` only deletes `{slug}.json`. Concretely: a successful
install of `rust` leaves `rust.bin` on disk and the in-memory map with
key `rust`, yet a restart's `load_cache` over that very disk yields an
empty map (key set `∅` ≠ persisted-record slugs `{rust}`), and a
subsequent successful remove leaves the persisted record behind. -/
theorem install_persist_load_mismatch :
    (add_doc c1Env "rust" initState).2 = .ok () ∧
    list_installed_docs c1Installed = ["rust"] ∧
    c1Installed.disk.lookup "rust.bin" = some (.binIndex c1Index) ∧
    c1Installed.disk.lookup "rust.json" = none ∧
    list_installed_docs c1Reloaded = [] ∧
    (remove_doc true "rust" c1Installed).2 = .ok () ∧
    (remove_doc true "rust" c1Installed).1.disk.lookup "rust.bin"
      = some (.binIndex c1Index) := by decide

/-! ### Claim C7 -/

theorem loadStep_keys (cache : List (String × CachedDoc))
    (p : String × FileData) (slug : String) :
    slug ∈ keys (loadStep cache p) ↔
      slug ∈ keys cache ∨
        (fileExt p.1 = some "json" ∧ fileStem p.1 = some slug ∧
          slug ≠ "available_docs" ∧ (parseCachedDoc p.2).isSome) := by
  unfold loadStep
  by_cases he : fileExt p.1 = some "json"
  · simp only [he, if_true]
    rcases hstem : fileStem p.1 with _ | stem
    · simp [hstem]
    · by_cases hav : stem = "available_docs"
      · subst hav
        simp only [if_pos rfl, hstem]
        constructor
        · intro hm
          exact Or.inl hm
        · rintro (hm | ⟨_, hs, hne, _⟩)
          · exact hm
          · cases hs
            exact absurd rfl hne
      · simp only [if_neg hav, hstem]
        rcases hp : parseCachedDoc p.2 with _ | c
        · simp [hp]
        · simp only [hp, mem_keys_insertKey, Option.isSome_some]
          constructor
          · rintro (rfl | hm)
            · exact Or.inr ⟨trivial, rfl, hav, trivial⟩
            · exact Or.inl hm
          · rintro (hm | ⟨_, hs, _, _⟩)
            · exact Or.inr hm
            · cases hs
              exact Or.inl rfl
  · simp [he]

theorem keys_foldl_loadStep (disk : List (String × FileData))
    (init : List (String × CachedDoc)) (slug : String) :
    slug ∈ keys (disk.foldl loadStep init) ↔
      slug ∈ keys init ∨ ∃ p ∈ disk, fileExt p.1 = some "json" ∧
        fileStem p.1 = some slug ∧ slug ≠ "available_docs" ∧
        (parseCachedDoc p.2).isSome := by
  induction disk generalizing init with
  | nil => simp
  | cons p disk ih =>
    rw [List.foldl_cons, ih, loadStep_keys]
    simp only [List.mem_cons]
    constructor
    · rintro ((hm | hp) | ⟨q, hq, hprop⟩)
      · exact Or.inl hm
      · exact Or.inr ⟨p, Or.inl rfl, hp⟩
      · exact Or.inr ⟨q, Or.inr hq, hprop⟩
    · rintro (hm | ⟨q, (rfl | hq), hprop⟩)
      · exact Or.inl (Or.inl hm)
      · exact Or.inl (Or.inr hprop)
      · exact Or.inr ⟨q, hq, hprop⟩

def c7Good1 : CachedDoc := ⟨⟨"A", "a", "t", none, 0, 0, none, none⟩, ⟨[], []⟩, 1⟩

def c7Good2 : CachedDoc := ⟨⟨"C", "c", "t", none, 0, 0, none, none⟩, ⟨[], []⟩, 2⟩

/-- Three persisted records, the middle one corrupt. -/
def c7Disk : List (String × FileData) :=
  [("a.json", .binCached c7Good1), ("b.json", .corrupt),
    ("c.json", .binCached c7Good2)]

/-- **C7**: `load_cache` itself never fails because of a corrupt
per-slug record, and from an empty map it loads exactly the records
that read and parse: a slug ends installed iff some `.json` file with
that stem (other than `available_docs`) parses as a `CachedDoc`.
Concretely, with three records of which one is corrupt, the two valid
ones load and the corrupt one is skipped. -/
theorem load_cache_skips_corrupt (disk : List (String × FileData))
    (avail0 : Option (List Doc × Nat)) :
    ((load_cache ⟨[], avail0, disk⟩).2 = .ok ()) ∧
    (∀ slug, slug ∈ keys (load_cache ⟨[], avail0, disk⟩).1.cache ↔
      ∃ p ∈ disk, fileExt p.1 = some "json" ∧ fileStem p.1 = some slug ∧
        slug ≠ "available_docs" ∧ (parseCachedDoc p.2).isSome) ∧
    (load_cache ⟨[], none, c7Disk⟩).1.cache
      = [("a", c7Good1), ("c", c7Good2)] := by
  refine ⟨rfl, ?_, by decide⟩
  intro slug
  unfold load_cache
  dsimp only
  rw [keys_foldl_loadStep]
  simp [keys]

/-! ### Claim C5 -/

/-- **C5**: after a successful `remove_doc slug`, the slug is no longer
installed, and after any further operations of which none installs that
slug, no search result carries the removed slug as its owning-set
slug. -/
theorem remove_then_search_never_carries_slug (removeOk : Bool) (slug : String)
    (s : MgrState) (h : (remove_doc removeOk slug s).2 = .ok ())
    (ops : List Op) (hops : ∀ op ∈ ops, installsSlug slug op = false) :
    is_doc_installed slug (remove_doc removeOk slug s).1 = false ∧
    ∀ fm q lim r,
      r ∈ search fm q lim (execOps (remove_doc removeOk slug s).1 ops) →
      r.entry.doc_slug ≠ slug := by
  have h1 := remove_doc_uninstalls removeOk slug s
  refine ⟨h1, ?_⟩
  intro fm q lim r hr
  have hmem0 : slug ∉ keys (remove_doc removeOk slug s).1.cache := by
    rw [mem_keys_iff_lookup_isSome]
    unfold is_doc_installed at h1
    simp [h1]
  have hmem := not_installed_execOps hmem0 hops
  intro heq
  apply hmem
  have h3 := search_doc_slug_mem hr
  rw [heq] at h3
  exact h3

def c5Doc : Doc := ⟨"Py", "py", "lang", none, 0, 0, none, none⟩

def c5State : MgrState :=
  ⟨[("py", ⟨c5Doc, ⟨[⟨"map", "f/map", "fn"⟩], []⟩, 1⟩)], none, []⟩

def c5Ops : List Op := [Op.refreshOp ⟨some [c5Doc], true, 2, 2⟩]

/-- Witness for C5: remove `py` from a one-doc store, then run a
catalog refresh (not an install of `py`). -/
theorem remove_then_search_never_carries_slug_witness :
    ((remove_doc true "py" c5State).2 = .ok ()) ∧
    (∀ op ∈ c5Ops, installsSlug "py" op = false) ∧
    (is_doc_installed "py" (remove_doc true "py" c5State).1 = false ∧
      ∀ fm q lim r,
        r ∈ search fm q lim (execOps (remove_doc true "py" c5State).1 c5Ops) →
        r.entry.doc_slug ≠ "py") :=
  ⟨by decide, by decide,
    remove_then_search_never_carries_slug true "py" c5State (by decide) c5Ops
      (by decide)⟩

end DevDocs
